import Mathlib

/-!
Verification development for the Dominion Weighted Card Picker (`dwcp.py`).

The selector's pure logic is embedded shallowly:
* card dictionaries become the `Card` structure (only the keys the selection
  logic reads are kept);
* the random draws of `random.choices`, `random.choice` and `random.sample`
  are modelled by oracles (`Nat → Nat`) supplying the index chosen at each
  step; every index has positive weight in the source, so every oracle value
  corresponds to a possible draw;
* the unbounded `while` loops become fuel-indexed recursions returning
  `LoopResult`, where `.spin` records that the fuel ran out (the source loop
  had not terminated within that many iterations) and `.err` records an
  uncaught Python exception (`ValueError` / `IndexError`);
* Python float weights `1 / (pickTimes + 1)` are modelled by exact rationals.
-/

/-- The `DO` enum of the source (`class DO(Enum)`). -/
inductive DO where
  | NOTHING
  | CONTINUE
  | BREAK
  | ALCHEMY
deriving DecidableEq

/-- A card dictionary, restricted to the keys the selection logic reads.
`type` is the landscape-type key (unused on kingdom cards), `toPick` is the
eligibility flag, `set` the owning set name. -/
structure Card where
  name : String
  set : String
  type : String
  pickTimes : Nat
  toPick : Bool
  isLiaison : Bool
  isOmen : Bool
deriving DecidableEq

/-- `alchemy_card_check(kingdomCard, selectedCards, alchemyCards)` from
`dwcp.py` lines 276-297, translated clause by clause.  `missing` is the Python
int `10 - selectedCards`, hence the `Int` arithmetic. -/
def alchemy_card_check (kingdomCard : Card) (selectedCards : Nat) (alchemyCards : Nat) : DO :=
  let missing : Int := 10 - (selectedCards : Int)
  if 3 ≤ alchemyCards then DO.NOTHING
  else if kingdomCard.set = "alchemy" then
    if 3 - (alchemyCards : Int) ≤ missing then DO.ALCHEMY else DO.CONTINUE
  else if kingdomCard.set ≠ "alchemy" ∧ 1 ≤ alchemyCards then DO.CONTINUE
  else DO.NOTHING

/-- The three possible outcomes of the category-cap rule as the specification
words it: accept unconditionally, accept as a capped-category item, or reject
and redraw. -/
inductive CapDecision where
  | acceptAny
  | acceptCapped
  | reject
deriving DecidableEq

/-- The category-cap rule exactly as the specification states it, with capped
category minimum `M = 3` and hard maximum `C = 3`: (1) counter at the hard
maximum accepts anything; (2) a capped item is accepted iff
`M - acceptedCappedCount ≤ remainingSlots`; (3) a non-capped item is accepted
when no capped item has been accepted yet; (4) otherwise reject. -/
def capRuleSpec (isCapped : Bool) (acceptedCappedCount : Nat) (remainingSlots : Int) : CapDecision :=
  if 3 ≤ acceptedCappedCount then .acceptAny
  else if isCapped then
    if 3 - (acceptedCappedCount : Int) ≤ remainingSlots then .acceptCapped else .reject
  else if acceptedCappedCount = 0 then .acceptAny
  else .reject

/-- How each spec-level decision is encoded by the source's `DO` enum. -/
def doOfDecision : CapDecision → DO
  | .acceptAny => DO.NOTHING
  | .acceptCapped => DO.ALCHEMY
  | .reject => DO.CONTINUE

/-- Result of a fuel-indexed loop: `ok` is normal exit, `err` an uncaught
Python exception, `spin` means the loop had not finished within the fuel. -/
inductive LoopResult (α : Type) where
  | ok (a : α)
  | err
  | spin
deriving DecidableEq

/-- The mutable state of the kingdom-picking loop of `pick_random_cards`:
`t` is the position of the draw oracle, `pool` is `randpiles["kingdoms"]`,
`weights` the parallel weight list, `picked` is `picked["kingdoms"]`, and
`alch` the `alchemyCards` counter. -/
structure InnerState where
  t : Nat
  pool : List Card
  weights : List ℚ
  picked : List Card
  alch : Nat
deriving DecidableEq

/-- The weight list of `pick_random_cards` line 318:
`[1 / (card['pickTimes'] + 1) for card in randpiles["kingdoms"]]`. -/
def mkWeights (pool : List Card) : List ℚ :=
  pool.map (fun card => 1 / ((card.pickTimes : ℚ) + 1))

/-- One iteration of the inner `while numCardsPicked < num_kingdom` loop
(`dwcp.py` lines 332-354): draw a card at the oracle's index, run
`alchemy_card_check`; on `DO.CONTINUE` the card is merely skipped (the
`continue` statement bypasses the `pop` calls), otherwise it is appended to
`picked` and removed (with its weight) at `randpiles["kingdoms"].index(kc[0])`,
the first value-equal position.  Returns the new state and whether the card
was accepted; `none` models the exception `random.choices` raises on an empty
population. -/
def drawStep (draws : Nat → Nat) (st : InnerState) : Option (InnerState × Bool) :=
  match st.pool with
  | [] => none
  | c :: _ =>
    let j := draws st.t % st.pool.length
    let kc := st.pool.getD j c
    let rc := alchemy_card_check kc st.picked.length st.alch
    if rc = DO.CONTINUE then
      some ({ st with t := st.t + 1 }, false)
    else
      let selIdx := st.pool.indexOf kc
      some ({ t := st.t + 1
              pool := st.pool.eraseIdx selIdx
              weights := st.weights.eraseIdx selIdx
              picked := st.picked ++ [kc]
              alch := if rc = DO.ALCHEMY then st.alch + 1 else st.alch }, true)

/-- The inner `while numCardsPicked < num_kingdom` loop, fuel-indexed:
`need` is `num_kingdom - numCardsPicked`, decremented only on acceptance. -/
def innerLoop (draws : Nat → Nat) : Nat → InnerState → Nat → LoopResult InnerState
  | 0, st, need => if need = 0 then .ok st else .spin
  | fuel + 1, st, need =>
    if need = 0 then .ok st
    else
      match drawStep draws st with
      | none => .err
      | some (st2, accepted) =>
        innerLoop draws fuel st2 (if accepted then need - 1 else need)

/-- Python's `<` on strings: lexicographic comparison of code points. -/
def charListLt : List Char → List Char → Bool
  | [], [] => false
  | [], _ :: _ => true
  | _ :: _, [] => false
  | a :: as, b :: bs =>
    if a.toNat < b.toNat then true
    else if b.toNat < a.toNat then false
    else charListLt as bs

/-- Name comparison used by `sort(key=lambda x: x['name'])`. -/
def nameLt (a b : String) : Bool := charListLt a.toList b.toList

/-- Stable insertion used to model `picked["kingdoms"].sort(key=lambda x: x['name'])`:
the new card goes after every card whose name is not greater. -/
def insertCardByName (c : Card) : List Card → List Card
  | [] => [c]
  | d :: ds => if nameLt c.name d.name then c :: d :: ds else d :: insertCardByName c ds

/-- `list.sort(key=lambda x: x['name'])`: Python's sort is stable and
ascending, which determines its output uniquely; stable insertion sort
computes the same list. -/
def sortByName (l : List Card) : List Card :=
  l.foldl (fun acc c => insertCardByName c acc) []

/-- The digits-only core of Python `int()` applied to a whitespace-free token. -/
def digitsToNat (cs : List Char) : Option Nat :=
  if cs = [] ∨ ¬ cs.all Char.isDigit then none
  else some (cs.foldl (fun acc ch => acc * 10 + (ch.toNat - 48)) 0)

/-- Python `int(token)` on a token produced by `str.split`: an optional sign
followed by digits; anything else raises `ValueError`, modelled as `none`. -/
def strToInt (s : String) : Option Int :=
  match s.toList with
  | [] => none
  | '-' :: rest => (digitsToNat rest).map (fun n => -(n : Int))
  | '+' :: rest => (digitsToNat rest).map (fun n => (n : Int))
  | cs => (digitsToNat cs).map (fun n => (n : Int))

/-- Python list indexing `l[i]` with an `Int` index: negative indices wrap
from the end, anything out of range raises `IndexError` (`none`). -/
def pyGet (l : List Card) (i : Int) : Option Card :=
  if 0 ≤ i then l.get? i.toNat
  else if (-i).toNat ≤ l.length then l.get? (l.length - (-i).toNat)
  else none

/-- The first reroll loop (`dwcp.py` lines 367-371): for each answer token,
`idx = int(remove_idx) - 1; names.append(picked['kingdoms'][idx]['name'])`.
A token that `int()` rejects or an index outside Python's range propagates the
exception, modelled as `none`. -/
def collectNames : List String → List Card → Option (List String)
  | [], _ => some []
  | tok :: rest, picked =>
    match (strToInt tok).bind (fun i => pyGet picked (i - 1)) with
    | none => none
    | some c => (collectNames rest picked).map (fun ns => c.name :: ns)

/-- Remove the first card with the given name, returning the remaining list
and the removed card (if any), as the `for pcard ... break` loop does. -/
def eraseFirstByName : List Card → String → List Card × List Card
  | [], _ => ([], [])
  | c :: cs, nm =>
    if c.name = nm then (cs, [c])
    else
      let pr := eraseFirstByName cs nm
      (c :: pr.1, pr.2)

/-- The second reroll loop (`dwcp.py` lines 373-380): remove, name by name,
the first matching card from the picked list.  Also returns the discarded
cards so the development can speak about them. -/
def removeByNames : List Card → List String → List Card × List Card
  | picked, [] => (picked, [])
  | picked, nm :: rest =>
    let pr1 := eraseFirstByName picked nm
    let pr2 := removeByNames pr1.1 rest
    (pr2.1, pr1.2 ++ pr2.2)

/-- Final state of the `while True` reroll loop: the surviving pool and
weights, the sorted picked list, the `alchemyCards` counter, the oracle
position, and (as observable instrumentation) the cards discarded by rerolls. -/
structure RoundsOut where
  pool : List Card
  weights : List ℚ
  picked : List Card
  alch : Nat
  t : Nat
  discarded : List Card
deriving DecidableEq

/-- The outer `while True` loop of `pick_random_cards` (lines 329-380): run
the inner draw loop, sort the picked cards by name, then read the operator's
answer.  An empty answer breaks out; otherwise `num_kingdom` becomes the
number of tokens, the named cards are removed, and the loop repeats.
`inputs` lists the successive operator answers (already split into tokens);
an exhausted list models the operator pressing return. -/
def rounds (draws : Nat → Nat) (fuel : Nat) :
    List (List String) → InnerState → Nat → List Card → LoopResult RoundsOut
  | [], st, num_kingdom, discarded =>
    match innerLoop draws fuel st num_kingdom with
    | .spin => .spin
    | .err => .err
    | .ok st2 => .ok ⟨st2.pool, st2.weights, sortByName st2.picked, st2.alch, st2.t, discarded⟩
  | answ :: rest, st, num_kingdom, discarded =>
    match innerLoop draws fuel st num_kingdom with
    | .spin => .spin
    | .err => .err
    | .ok st2 =>
      let sorted := sortByName st2.picked
      if answ = [] then .ok ⟨st2.pool, st2.weights, sorted, st2.alch, st2.t, discarded⟩
      else
        match collectNames answ sorted with
        | none => .err
        | some names =>
          let pr := removeByNames sorted names
          rounds draws fuel rest { st2 with picked := pr.1 } answ.length (discarded ++ pr.2)

/-- `random.choice(l)` with the oracle value `r` selecting the index; raises
on an empty sequence (`none`). -/
def pyChoice (l : List Card) (r : Nat) : Option Card :=
  match l with
  | [] => none
  | c :: _ => some (l.getD (r % l.length) c)

/-- `kcard['pickTimes'] += 1` on an immutable card. -/
def incPick (c : Card) : Card :=
  { c with pickTimes := c.pickTimes + 1 }

/-- The body of the final kingdom scan (`dwcp.py` lines 385-397) for one card:
increment its `pickTimes`; if no ally card was drawn yet and the card is a
Liaison, draw one ally; if no prophecy card was drawn yet and the card is an
Omen, draw one prophecy.  Returns the updated draw states and the landscape
cards appended for this kingdom card. -/
def scanCard (allyDraw prophecyDraw : Nat) (allies prophecies : List Card)
    (allyCard prophecyCard : Option Card) (k : Card) :
    Option (Option Card × Option Card × List Card) :=
  let step1 : Option (Option Card × List Card) :=
    if allyCard = none ∧ k.isLiaison then
      match pyChoice allies allyDraw with
      | none => none
      | some a => some (some a, [a])
    else some (allyCard, [])
  match step1 with
  | none => none
  | some (allyCard2, l1) =>
    if prophecyCard = none ∧ k.isOmen then
      match pyChoice prophecies prophecyDraw with
      | none => none
      | some p => some (allyCard2, some p, l1 ++ [p])
    else some (allyCard2, prophecyCard, l1)

/-- The `for kcard in picked["kingdoms"]` scan of `dwcp.py` lines 385-397:
increments every picked kingdom card's `pickTimes` and appends the ally and
prophecy cards drawn for the first Liaison and the first Omen.  Returns the
incremented kingdom list and the appended landscapes; `none` models the
exception `random.choice` raises on an empty pile. -/
def scan_liaison_omen (allyDraw prophecyDraw : Nat) (allies prophecies : List Card) :
    Option Card → Option Card → List Card → Option (List Card × List Card)
  | _, _, [] => some ([], [])
  | allyCard, prophecyCard, k :: ks =>
    match scanCard allyDraw prophecyDraw allies prophecies allyCard prophecyCard k with
    | none => none
    | some (a2, p2, apps) =>
      match scan_liaison_omen allyDraw prophecyDraw allies prophecies a2 p2 ks with
      | none => none
      | some (ks2, ls) => some (incPick k :: ks2, apps ++ ls)

/-- `random.sample(pool, k)` modelled with an oracle: repeatedly select the
index given by the oracle and remove the element, `k` times (the caller
guarantees `k ≤ |pool|`, as `random.sample` requires). -/
def sampleOracle (samp : Nat → Nat) : Nat → Nat → List Card → List Card
  | _, 0, _ => []
  | _, _ + 1, [] => []
  | t, k + 1, c :: cs =>
    let pool := c :: cs
    let j := samp t % pool.length
    pool.getD j c :: sampleOracle samp (t + 1) k (pool.eraseIdx j)

/-- The landscape block of `pick_random_cards` (lines 400-408): when the
landscape pile is non-empty and `num_landscape > 0`, extend the already
picked landscapes with `random.sample(pool, min(num_landscape, len(pool)))`;
the pile itself is not mutated. -/
def pick_landscape_cards (samp : Nat → Nat) (landscapesPool : List Card)
    (num_landscape : Nat) (pickedLandscapes : List Card) : List Card :=
  if landscapesPool ≠ [] ∧ 0 < num_landscape then
    pickedLandscapes ++ sampleOracle samp 0 (min num_landscape landscapesPool.length) landscapesPool
  else pickedLandscapes

/-- The `randpiles` dictionary built by `create_randomizer_piles`. -/
structure Piles where
  kingdoms : List Card
  landscapes : List Card
  allies : List Card
  prophecies : List Card
deriving DecidableEq

/-- The `picked` dictionary returned by `pick_random_cards`. -/
structure Picked where
  kingdoms : List Card
  landscapes : List Card
deriving DecidableEq

/-- `pick_random_cards(randpiles, num_kingdom, num_landscape)` (`dwcp.py`
lines 302-415).  `draws` is the oracle for the weighted kingdom draws,
`inputs` the operator's reroll answers, `allyDraw` / `prophecyDraw` the
oracle values for the two `random.choice` calls, `samp` the oracle for
`random.sample`, and `fuel` bounds the unbounded source loops.  Returns the
`picked` dictionary together with the cards discarded by reroll rounds. -/
def pick_random_cards (draws : Nat → Nat) (inputs : List (List String))
    (allyDraw prophecyDraw : Nat) (samp : Nat → Nat) (fuel : Nat)
    (randpiles : Piles) (num_kingdom num_landscape : Nat) :
    LoopResult (Picked × List Card) :=
  match randpiles.kingdoms with
  | [] =>
    let landscapes := pick_landscape_cards samp randpiles.landscapes num_landscape []
    .ok (⟨[], landscapes⟩, [])
  | _ :: _ =>
    let weights := mkWeights randpiles.kingdoms
    match rounds draws fuel inputs ⟨0, randpiles.kingdoms, weights, [], 0⟩ num_kingdom [] with
    | .spin => .spin
    | .err => .err
    | .ok out =>
      match scan_liaison_omen allyDraw prophecyDraw randpiles.allies randpiles.prophecies
          none none out.picked with
      | none => .err
      | some (kingdoms2, specials) =>
        let landscapes := pick_landscape_cards samp randpiles.landscapes num_landscape specials
        .ok (⟨kingdoms2, landscapes⟩, out.discarded)

/-- The fixed `LANDSCAPE_NAMES_TO_NAME` dictionary in its insertion order. -/
def LANDSCAPE_NAMES_TO_NAME : List (String × String) :=
  [("allies", "ally"), ("events", "event"), ("landmarks", "landmark"),
   ("prophecies", "prophecy"), ("projects", "project"), ("traits", "trait"),
   ("ways", "way")]

/-- One loaded set file: its name and the relevant parts of the parsed YAML
(the `cards` list and the landscape groups present in the file, keyed by
their plural name).  Reading and parsing the files is I/O outside the core. -/
structure SetData where
  setname : String
  cards : List Card
  groups : List (String × List Card)

/-- Routing of one landscape card (`dwcp.py` lines 259-269): tag it with its
set and type, then append it to the allies, prophecies or landscapes pile. -/
def routeLandscape (setname : String) (tname : String) (p : Piles) (l : Card) : Piles :=
  let l2 := { l with set := setname, type := tname }
  if l2.type = "ally" then { p with allies := p.allies ++ [l2] }
  else if l2.type = "prophecy" then { p with prophecies := p.prophecies ++ [l2] }
  else { p with landscapes := p.landscapes ++ [l2] }

/-- Kingdom-card block of `create_randomizer_piles` (lines 245-252): tag each
card with the set name and keep only those with `toPick` true. -/
def addKingdomCards (setname : String) (piles : Piles) (cards : List Card) : Piles :=
  cards.foldl (fun p kcard =>
    let kc := { kcard with set := setname }
    if kc.toPick then { p with kingdoms := p.kingdoms ++ [kc] } else p) piles

/-- Processing of one set file by `create_randomizer_piles`: kingdom cards
first, then every landscape group present in the file, in the fixed
`LANDSCAPE_NAMES_TO_NAME` order. -/
def addSet (piles : Piles) (s : SetData) : Piles :=
  LANDSCAPE_NAMES_TO_NAME.foldl (fun p pr =>
    match s.groups.lookup pr.1 with
    | none => p
    | some ls => ls.foldl (routeLandscape s.setname pr.2) p)
    (addKingdomCards s.setname piles s.cards)

/-- `create_randomizer_piles` (`dwcp.py` lines 212-271), parametrized by the
loaded set files. -/
def create_randomizer_piles (sets : List SetData) : Piles :=
  sets.foldl addSet ⟨[], [], [], []⟩

/-- A throwaway card value used only as the default of `List.getD`. -/
def dummyCard : Card := ⟨"", "", "", 0, true, false, false⟩

/-- An eligible alchemy-set card with the given name, `pickTimes = 0`. -/
def alchemyTestCard (n : String) : Card := ⟨n, "alchemy", "", 0, true, false, false⟩

/-- An eligible base-set card with the given name, `pickTimes = 0`. -/
def baseTestCard (n : String) : Card := ⟨n, "base", "", 0, true, false, false⟩

/-- Number of capped-category (alchemy-set) cards in a list. -/
def alchemyCount (l : List Card) : Nat :=
  (l.filter (fun c => c.set = "alchemy")).length

/-- Observation of the `alchemyCards` counter of a finished reroll loop. -/
def alchOf : LoopResult RoundsOut → Option Nat
  | .ok out => some out.alch
  | _ => none

/-- Observation of the capped-category count of a finished selection. -/
def pickedAlchemyCount : LoopResult (Picked × List Card) → Option Nat
  | .ok pr => some (alchemyCount pr.1.kingdoms)
  | _ => none

/-- The landscape cards the specification says the final kingdom scan appends:
one ally card `a` if some kingdom card is a Liaison, one prophecy card `p` if
some kingdom card is an Omen, ordered by the positions of the first Liaison
and the first Omen. -/
def expectedSpecials (hasLiaison hasOmen : Bool) (iLiaison iOmen : Nat) (a p : Card) : List Card :=
  if hasLiaison then
    if hasOmen then (if iLiaison ≤ iOmen then [a, p] else [p, a]) else [a]
  else if hasOmen then [p] else []

/-- A primary pool of ten distinct capped-category cards. -/
def c1piles : Piles :=
  ⟨[alchemyTestCard "a0", alchemyTestCard "a1", alchemyTestCard "a2",
    alchemyTestCard "a3", alchemyTestCard "a4", alchemyTestCard "a5",
    alchemyTestCard "a6", alchemyTestCard "a7", alchemyTestCard "a8",
    alchemyTestCard "a9"], [], [], []⟩

/-- A primary pool holding only two capped-category cards and nine others:
the deadlock example of the specification (`M = 3`, `C = 3`,
`primaryCount = 10`). -/
def c2kingdoms : List Card :=
  [alchemyTestCard "a0", alchemyTestCard "a1",
   baseTestCard "n0", baseTestCard "n1", baseTestCard "n2", baseTestCard "n3",
   baseTestCard "n4", baseTestCard "n5", baseTestCard "n6", baseTestCard "n7",
   baseTestCard "n8"]

/-- The deadlock-example piles. -/
def c2piles : Piles := ⟨c2kingdoms, [], [], []⟩

/-- Entry state of the kingdom loop on the deadlock example. -/
def c2start : InnerState := ⟨0, c2kingdoms, mkWeights c2kingdoms, [], 0⟩

/-- The state the deadlock example reaches after its two capped cards were
accepted: only non-capped cards remain while the counter sits at 2 of the
minimum 3, so every further draw is rejected. -/
def c2stuck : InnerState :=
  ⟨2,
   [baseTestCard "n0", baseTestCard "n1", baseTestCard "n2", baseTestCard "n3",
    baseTestCard "n4", baseTestCard "n5", baseTestCard "n6", baseTestCard "n7",
    baseTestCard "n8"],
   ((mkWeights c2kingdoms).eraseIdx 0).eraseIdx 0,
   [alchemyTestCard "a0", alchemyTestCard "a1"], 2⟩

/-- A secondary item (landscape card) that is ineligible (`toPick = false`). -/
def ineligibleLandscape : Card := ⟨"bad", "", "", 0, false, false, false⟩

/-- A set file whose only content is one ineligible landscape card. -/
def c9set : SetData := ⟨"base", [], [("events", [ineligibleLandscape])]⟩

/-- A three-card pool for the reroll witness run. -/
def c5piles : Piles :=
  ⟨[baseTestCard "a", baseTestCard "b", baseTestCard "c"], [], [], []⟩

/-- A kingdom card carrying the Liaison flag. -/
def liaisonTestCard : Card := ⟨"k1", "base", "", 0, true, true, false⟩

/-- A kingdom card carrying the Omen flag. -/
def omenTestCard : Card := ⟨"k2", "base", "", 0, true, false, true⟩

/-! ### Helper lemmas -/

theorem getD_mem_cons {α : Type} : ∀ (l : List α) (j : Nat) (d : α), l.getD j d ∈ d :: l
  | [], j, d => by simp
  | x :: xs, 0, d => by simp
  | x :: xs, j + 1, d => by
    rw [List.getD_cons_succ]
    rcases List.mem_cons.1 (getD_mem_cons xs j d) with h | h
    · rw [h]; exact List.mem_cons_self d (x :: xs)
    · exact List.mem_cons_of_mem d (List.mem_cons_of_mem x h)

theorem map_eraseIdx {α β : Type} (f : α → β) :
    ∀ (l : List α) (i : Nat), (l.map f).eraseIdx i = (l.eraseIdx i).map f
  | [], _ => by simp
  | x :: xs, 0 => by simp
  | x :: xs, i + 1 => by
    simp [List.eraseIdx_cons_succ, map_eraseIdx f xs i]

theorem getD_cons_eraseIdx_perm {α : Type} :
    ∀ (l : List α) (j : Nat), j < l.length → ∀ d, (l.getD j d :: l.eraseIdx j).Perm l
  | x :: xs, 0, _, d => by simp
  | x :: xs, j + 1, h, d => by
    have hj : j < xs.length := by simpa using h
    have h1 : ((x :: xs).getD (j + 1) d :: (x :: xs).eraseIdx (j + 1)).Perm
        (x :: (xs.getD j d :: xs.eraseIdx j)) := by
      rw [List.getD_cons_succ, List.eraseIdx_cons_succ]
      exact List.Perm.swap x (xs.getD j d) (xs.eraseIdx j)
    exact h1.trans ((getD_cons_eraseIdx_perm xs j hj d).cons x)

/-- The source's cap-check returns `DO.ALCHEMY` only while the counter is
below the hard maximum 3. -/
theorem alchemy_card_check_counter (kc : Card) (sel alch : Nat)
    (h : alchemy_card_check kc sel alch = DO.ALCHEMY) : alch < 3 := by
  by_contra hc
  have h3 : 3 ≤ alch := by omega
  simp [alchemy_card_check, h3] at h

/-- The source's cap-check rejects every non-capped card while the counter is
in `[1, 2]`. -/
theorem alchemy_card_check_rejects (kc : Card) (sel alch : Nat)
    (hset : kc.set ≠ "alchemy") (h1 : 1 ≤ alch) (h2 : alch ≤ 2) :
    alchemy_card_check kc sel alch = DO.CONTINUE := by
  have h3 : ¬ 3 ≤ alch := by omega
  simp [alchemy_card_check, h3, hset, h1]

/-- Full case analysis of one draw: the drawn card is in the pool, and the
step either skips it (on `DO.CONTINUE`) or accepts it, removing it and its
weight entry at the first value-equal index. -/
theorem drawStep_cases (draws : Nat → Nat) (st : InnerState) (hp : st.pool ≠ []) :
    ∃ kc, kc ∈ st.pool ∧
      ((alchemy_card_check kc st.picked.length st.alch = DO.CONTINUE ∧
        drawStep draws st = some ({ st with t := st.t + 1 }, false)) ∨
       (alchemy_card_check kc st.picked.length st.alch ≠ DO.CONTINUE ∧
        drawStep draws st = some ({ t := st.t + 1
                                    pool := st.pool.eraseIdx (st.pool.indexOf kc)
                                    weights := st.weights.eraseIdx (st.pool.indexOf kc)
                                    picked := st.picked ++ [kc]
                                    alch := if alchemy_card_check kc st.picked.length st.alch
                                              = DO.ALCHEMY then st.alch + 1 else st.alch },
                                  true))) := by
  obtain ⟨t, pool, w, pk, al⟩ := st
  rcases pool with _ | ⟨c, cs⟩
  · exact absurd rfl hp
  · refine ⟨(c :: cs).getD (draws t % (c :: cs).length) c, ?_, ?_⟩
    · rcases List.mem_cons.1 (getD_mem_cons (c :: cs) (draws t % (c :: cs).length) c) with h | h
      · rw [h]; exact List.mem_cons_self c cs
      · exact h
    · by_cases hc : alchemy_card_check ((c :: cs).getD (draws t % (c :: cs).length) c)
          pk.length al = DO.CONTINUE
      · refine Or.inl ⟨hc, ?_⟩
        simp only [drawStep]
        rw [if_pos hc]
      · refine Or.inr ⟨hc, ?_⟩
        simp only [drawStep]
        rw [if_neg hc]

/-! ### C3 -/

/-- C3: the category-cap decision function implements exactly the specified
four-branch rule in the specified precedence order, where `remainingSlots`
is the Python expression `10 - selectedCards` — the number of unfilled
primary slots, the total primary count being the program's fixed `10`. -/
theorem c3_cap_rule_four_branches (kingdomCard : Card) (selectedCards alchemyCards : Nat) :
    alchemy_card_check kingdomCard selectedCards alchemyCards =
      doOfDecision (capRuleSpec (decide (kingdomCard.set = "alchemy")) alchemyCards
        (10 - (selectedCards : Int))) := by
  unfold alchemy_card_check capRuleSpec
  by_cases hs : kingdomCard.set = "alchemy" <;>
    simp only [hs, decide_eq_true_eq, if_true, if_false] <;>
    split_ifs <;> simp_all [doOfDecision]

/-! ### C4 -/

/-- C4 counterexample: a draw rejected by the cap rule (a non-capped card
while the counter is at 1) leaves the pool untouched — its size does not
decrease by 1, and the card stays available. -/
theorem c4_counterexample :
    drawStep (fun _ => 0) ⟨5, [baseTestCard "n"], [1], [alchemyTestCard "a"], 1⟩ =
      some (⟨6, [baseTestCard "n"], [1], [alchemyTestCard "a"], 1⟩, false) ∧
    ¬ (([baseTestCard "n"] : List Card).length = [baseTestCard "n"].length - 1) := by
  constructor
  · rfl
  · decide

/-- C4 amended: every draw from a non-empty pool returns; on acceptance the
pool shrinks by exactly 1 (the card and its weight entry are removed), while
a draw rejected by the cap rule leaves pool, weights and picked list
unchanged, so the rejected card can be drawn again. -/
theorem c4_pool_after_draw (draws : Nat → Nat) (st : InnerState) (hp : st.pool ≠ []) :
    ∃ st2 accepted, drawStep draws st = some (st2, accepted) ∧
      st2.pool.length = (if accepted then st.pool.length - 1 else st.pool.length) ∧
      (accepted = false → st2.pool = st.pool ∧ st2.weights = st.weights ∧
        st2.picked = st.picked) := by
  rcases drawStep_cases draws st hp with ⟨kc, hmem, hcase | hcase⟩
  · exact ⟨_, false, hcase.2, by simp, fun _ => ⟨rfl, rfl, rfl⟩⟩
  · refine ⟨_, true, hcase.2, ?_, by simp⟩
    have hidx : st.pool.indexOf kc < st.pool.length := List.indexOf_lt_length.2 hmem
    simp [List.length_eraseIdx, hidx]
    exact List.length_erase_of_mem hmem

/-- Witness for `c4_pool_after_draw` at a concrete accepted draw. -/
theorem c4_pool_after_draw_witness :
    ∃ st2 accepted,
      drawStep (fun _ => 0) ⟨0, [baseTestCard "n"], [1], [], 0⟩ = some (st2, accepted) ∧
      st2.pool.length = (if accepted then ([baseTestCard "n"] : List Card).length - 1
                          else ([baseTestCard "n"] : List Card).length) ∧
      (accepted = false → st2.pool = [baseTestCard "n"] ∧ st2.weights = [1] ∧
        st2.picked = []) :=
  c4_pool_after_draw (fun _ => 0) ⟨0, [baseTestCard "n"], [1], [], 0⟩ (by decide)

/-! ### C9 -/

/-- C9 counterexample: the Pile Builder puts a landscape card with
`toPick = false` into the landscape pool — ineligible secondary items are not
excluded before sampling. -/
theorem c9_counterexample :
    (create_randomizer_piles [c9set]).landscapes =
      [{ ineligibleLandscape with set := "base", type := "event" }] ∧
    ineligibleLandscape.toPick = false := by
  constructor
  · rfl
  · rfl

theorem addKingdomCards_mem (setname : String) :
    ∀ (cards : List Card) (piles : Piles) (c : Card),
      c ∈ (addKingdomCards setname piles cards).kingdoms →
      c ∈ piles.kingdoms ∨ c.toPick = true
  | [], piles, c, h => Or.inl h
  | kcard :: rest, piles, c, h => by
    rcases addKingdomCards_mem setname rest _ c h with h2 | h2
    · by_cases hk : ({ kcard with set := setname } : Card).toPick
      · simp only [addKingdomCards, List.foldl_cons, if_pos hk] at h2 ⊢
        rcases List.mem_append.1 h2 with h3 | h3
        · exact Or.inl h3
        · refine Or.inr ?_
          rcases List.mem_singleton.1 h3 with rfl
          exact hk
      · simpa [addKingdomCards, if_neg hk] using Or.inl h2
    · exact Or.inr h2

theorem routeLandscape_kingdoms (setname tname : String) (p : Piles) (l : Card) :
    (routeLandscape setname tname p l).kingdoms = p.kingdoms := by
  dsimp only [routeLandscape]
  split_ifs <;> rfl

theorem routeFold_kingdoms (setname tname : String) :
    ∀ (ls : List Card) (p : Piles),
      (ls.foldl (routeLandscape setname tname) p).kingdoms = p.kingdoms
  | [], p => rfl
  | l :: rest, p => by
    rw [List.foldl_cons, routeFold_kingdoms setname tname rest, routeLandscape_kingdoms]

theorem addSet_mem (s : SetData) (piles : Piles) (c : Card)
    (h : c ∈ (addSet piles s).kingdoms) : c ∈ piles.kingdoms ∨ c.toPick = true := by
  unfold addSet at h
  have hland : ∀ (prs : List (String × String)) (p : Piles),
      (prs.foldl (fun p pr =>
        match s.groups.lookup pr.1 with
        | none => p
        | some ls => ls.foldl (routeLandscape s.setname pr.2) p) p).kingdoms = p.kingdoms := by
    intro prs
    induction prs with
    | nil => intro p; rfl
    | cons pr rest ih =>
      intro p
      rw [List.foldl_cons, ih]
      cases hlk : s.groups.lookup pr.1 with
      | none => rfl
      | some ls => exact routeFold_kingdoms s.setname pr.2 ls p
  rw [hland] at h
  exact addKingdomCards_mem s.setname s.cards piles c h

/-- C9 amended: kingdom (primary) items with the eligibility flag false are
excluded from the kingdom pool before any sampling; landscape items are not
filtered by eligibility. -/
theorem c9_kingdoms_eligible (sets : List SetData) (c : Card)
    (h : c ∈ (create_randomizer_piles sets).kingdoms) : c.toPick = true := by
  unfold create_randomizer_piles at h
  have main : ∀ (ss : List SetData) (piles : Piles),
      (∀ d ∈ piles.kingdoms, d.toPick = true) →
      ∀ d ∈ (ss.foldl addSet piles).kingdoms, d.toPick = true := by
    intro ss
    induction ss with
    | nil => intro piles hinv d hd; exact hinv d hd
    | cons s rest ih =>
      intro piles hinv d hd
      refine ih (addSet piles s) ?_ d hd
      intro e he
      rcases addSet_mem s piles e he with h2 | h2
      · exact hinv e h2
      · exact h2
  exact main sets ⟨[], [], [], []⟩ (by intro d hd; simp at hd) c h

/-- Witness for `c9_kingdoms_eligible` on a one-set input. -/
theorem c9_kingdoms_eligible_witness : (baseTestCard "k").toPick = true :=
  c9_kingdoms_eligible [⟨"base", [baseTestCard "k"], []⟩]
    { baseTestCard "k" with set := "base" } (by decide)

/-! ### C1 -/

/-- C1 counterexample: on a primary pool of ten capped-category cards the
selector returns a finalized selection with ten capped-category items —
far above the hard maximum `C = 3` (after the counter reaches 3, further
capped cards are accepted unconditionally and not counted). -/
theorem c1_counterexample :
    pickedAlchemyCount
        (pick_random_cards (fun _ => 0) [] 0 0 (fun _ => 0) 30 c1piles 10 0) = some 10 ∧
    ¬ (10 ≤ 3) := by
  constructor
  · rfl
  · decide

theorem drawStep_alch (draws : Nat → Nat) (st st2 : InnerState) (b : Bool)
    (h : drawStep draws st = some (st2, b)) (h3 : st.alch ≤ 3) : st2.alch ≤ 3 := by
  have hp : st.pool ≠ [] := by
    intro hnil
    rw [drawStep, hnil] at h
    exact Option.noConfusion h
  rcases drawStep_cases draws st hp with ⟨kc, hmem, ⟨hc, heq⟩ | ⟨hc, heq⟩⟩
  · rw [heq] at h
    simp only [Option.some.injEq, Prod.mk.injEq] at h
    rw [← h.1]
    exact h3
  · rw [heq] at h
    simp only [Option.some.injEq, Prod.mk.injEq] at h
    rw [← h.1]
    by_cases hrc : alchemy_card_check kc st.picked.length st.alch = DO.ALCHEMY
    · have := alchemy_card_check_counter kc st.picked.length st.alch hrc
      show (if alchemy_card_check kc st.picked.length st.alch = DO.ALCHEMY
            then st.alch + 1 else st.alch) ≤ 3
      rw [if_pos hrc]
      omega
    · show (if alchemy_card_check kc st.picked.length st.alch = DO.ALCHEMY
            then st.alch + 1 else st.alch) ≤ 3
      rw [if_neg hrc]
      exact h3

theorem innerLoop_alch (draws : Nat → Nat) :
    ∀ (fuel : Nat) (st : InnerState) (need : Nat) (st2 : InnerState),
      st.alch ≤ 3 → innerLoop draws fuel st need = .ok st2 → st2.alch ≤ 3 := by
  intro fuel
  induction fuel with
  | zero =>
    intro st need st2 h3 h
    by_cases hn : need = 0
    · simp only [innerLoop, if_pos hn, LoopResult.ok.injEq] at h
      rw [← h]; exact h3
    · simp only [innerLoop, if_neg hn] at h
      exact LoopResult.noConfusion h
  | succ fuel ih =>
    intro st need st2 h3 h
    by_cases hn : need = 0
    · simp only [innerLoop, if_pos hn, LoopResult.ok.injEq] at h
      rw [← h]; exact h3
    · simp only [innerLoop, if_neg hn] at h
      cases hds : drawStep draws st with
      | none => rw [hds] at h; exact LoopResult.noConfusion h
      | some pr =>
        rw [hds] at h
        exact ih pr.1 (if pr.2 then need - 1 else need) st2
          (drawStep_alch draws st pr.1 pr.2 (by rw [hds]) h3) h

theorem rounds_alch (draws : Nat → Nat) (fuel : Nat) :
    ∀ (inputs : List (List String)) (st : InnerState) (nk : Nat) (disc : List Card)
      (out : RoundsOut), st.alch ≤ 3 →
      rounds draws fuel inputs st nk disc = .ok out → out.alch ≤ 3
  | [], st, nk, disc, out, h3, h => by
    cases hil : innerLoop draws fuel st nk with
    | err => simp only [rounds, hil] at h; exact LoopResult.noConfusion h
    | spin => simp only [rounds, hil] at h; exact LoopResult.noConfusion h
    | ok st2 =>
      have h2 := innerLoop_alch draws fuel st nk st2 h3 hil
      simp only [rounds, hil, LoopResult.ok.injEq] at h
      rw [← h]
      exact h2
  | answ :: rest, st, nk, disc, out, h3, h => by
    cases hil : innerLoop draws fuel st nk with
    | err => simp only [rounds, hil] at h; exact LoopResult.noConfusion h
    | spin => simp only [rounds, hil] at h; exact LoopResult.noConfusion h
    | ok st2 =>
      have h2 := innerLoop_alch draws fuel st nk st2 h3 hil
      simp only [rounds, hil] at h
      by_cases ha : answ = []
      · rw [if_pos ha] at h
        simp only [LoopResult.ok.injEq] at h
        rw [← h]
        exact h2
      · rw [if_neg ha] at h
        cases hcn : collectNames answ (sortByName st2.picked) with
        | none => rw [hcn] at h; exact LoopResult.noConfusion h
        | some names =>
          rw [hcn] at h
          exact rounds_alch draws fuel rest
            { st2 with picked := (removeByNames (sortByName st2.picked) names).1 }
            answ.length (disc ++ (removeByNames (sortByName st2.picked) names).2) out h2 h

/-- C1 amended: the selector's accepted-capped counter (`alchemyCards`) never
exceeds the hard maximum 3 in any finished reroll loop; the bound `≤ C` holds
of the counter, not of the number of capped-category cards in the final list,
and the lower bound `min(M, available)` does not hold at all. -/
theorem c1_cap_counter_bounded (draws : Nat → Nat) (fuel : Nat)
    (inputs : List (List String)) (kingdoms : List Card) (nk : Nat) (out : RoundsOut)
    (h : rounds draws fuel inputs ⟨0, kingdoms, mkWeights kingdoms, [], 0⟩ nk [] = .ok out) :
    out.alch ≤ 3 :=
  rounds_alch draws fuel inputs ⟨0, kingdoms, mkWeights kingdoms, [], 0⟩ nk [] out
    (Nat.zero_le 3) h

/-- Witness for `c1_cap_counter_bounded` on a one-card pool. -/
theorem c1_cap_counter_bounded_witness :
    (⟨[], [], [baseTestCard "x"], 0, 1, []⟩ : RoundsOut).alch ≤ 3 :=
  c1_cap_counter_bounded (fun _ => 0) 2 [] [baseTestCard "x"] 1
    ⟨[], [], [baseTestCard "x"], 0, 1, []⟩ rfl

/-! ### C2 -/

theorem innerLoop_stuck (draws : Nat → Nat) :
    ∀ (fuel : Nat) (st : InnerState) (need : Nat),
      1 ≤ st.alch → st.alch ≤ 2 → st.pool ≠ [] →
      (∀ c ∈ st.pool, c.set ≠ "alchemy") → need ≠ 0 →
      innerLoop draws fuel st need = .spin := by
  intro fuel
  induction fuel with
  | zero =>
    intro st need h1 h2 hp ha hn
    simp [innerLoop, hn]
  | succ fuel ih =>
    intro st need h1 h2 hp ha hn
    rcases drawStep_cases draws st hp with ⟨kc, hmem, ⟨hc, heq⟩ | ⟨hc, heq⟩⟩
    · simp only [innerLoop, if_neg hn]
      rw [heq]
      exact ih { st with t := st.t + 1 } need h1 h2 hp ha hn
    · exact absurd (alchemy_card_check_rejects kc st.picked.length st.alch (ha kc hmem) h1 h2) hc

theorem c2_two_steps (m : Nat) :
    innerLoop (fun _ => 0) (m + 2) c2start 10 = innerLoop (fun _ => 0) m c2stuck 8 := rfl

theorem pick_spin (draws : Nat → Nat) (inputs : List (List String)) (aD pD : Nat)
    (samp : Nat → Nat) (fuel : Nat) (randpiles : Piles) (nk nl : Nat)
    (hne : randpiles.kingdoms ≠ [])
    (h : rounds draws fuel inputs
          ⟨0, randpiles.kingdoms, mkWeights randpiles.kingdoms, [], 0⟩ nk [] = .spin) :
    pick_random_cards draws inputs aD pD samp fuel randpiles nk nl = .spin := by
  rcases hk : randpiles.kingdoms with _ | ⟨c, cs⟩
  · exact absurd hk hne
  · unfold pick_random_cards
    rw [hk] at h ⊢
    dsimp only
    rw [h]

/-- C2 (on the code bug): on the specification's own deadlock example — a
primary pool holding only two capped-category cards, `M = 3`, `C = 3`,
`primaryCount = 10` — once the two capped cards are drawn, the selector
rejects every remaining card and redraws forever: for every fuel bound the
loop is still spinning, so it neither returns a selection nor raises any
error (the source has no `DeadlockError` at all). -/
theorem c2_deadlock_spins_forever (fuel : Nat) :
    pick_random_cards (fun _ => 0) [] 0 0 (fun _ => 0) fuel c2piles 10 0 = .spin := by
  refine pick_spin (fun _ => 0) [] 0 0 (fun _ => 0) fuel c2piles 10 0 (by decide) ?_
  show rounds (fun _ => 0) fuel [] c2start 10 [] = .spin
  have hinner : innerLoop (fun _ => 0) fuel c2start 10 = .spin := by
    rcases fuel with _ | fuel1
    · rfl
    rcases fuel1 with _ | m
    · rfl
    · rw [c2_two_steps m]
      exact innerLoop_stuck (fun _ => 0) m c2stuck 8 (by decide) (by decide) (by decide)
        (by decide) (by decide)
  simp only [rounds, hinner]

/-! ### C6 -/

/-- C6 counterexample: a reroll answer containing the non-numeric token
`"abc"` makes the selector abort with an uncaught exception (`ValueError`
from `int("abc")`), modelled as `.err` — it is not rejected and re-prompted. -/
theorem c6_counterexample :
    rounds (fun _ => 0) 3 [["abc"]] ⟨0, [baseTestCard "x"], [1], [], 0⟩ 1 [] = .err ∧
    strToInt "abc" = none := by
  constructor
  · rfl
  · rfl

/-- C6 amended: reroll input containing a token that is non-numeric, or whose
index falls outside the Python range of the presented list, makes the name
collection fail, after which the selector aborts the run (`.err` in
`rounds`) — there is no local recovery or re-prompt. -/
theorem c6_bad_token_aborts (answ : List String) (picked : List Card)
    (h : ∃ tok, tok ∈ answ ∧ (strToInt tok).bind (fun i => pyGet picked (i - 1)) = none) :
    collectNames answ picked = none := by
  induction answ with
  | nil =>
    rcases h with ⟨tok, htok, _⟩
    exact absurd htok (List.not_mem_nil tok)
  | cons tok0 rest ih =>
    rcases h with ⟨tok, htok, hbad⟩
    rcases List.mem_cons.1 htok with rfl | hmem
    · simp only [collectNames, hbad]
    · cases hp : (strToInt tok0).bind (fun i => pyGet picked (i - 1)) with
      | none => simp only [collectNames, hp]
      | some c =>
        simp only [collectNames, hp]
        rw [ih ⟨tok, hmem, hbad⟩]
        rfl

/-- Witness for `c6_bad_token_aborts` on the token `"abc"`. -/
theorem c6_bad_token_aborts_witness : collectNames ["abc"] [baseTestCard "x"] = none :=
  c6_bad_token_aborts ["abc"] [baseTestCard "x"] ⟨"abc", List.mem_singleton.2 rfl, rfl⟩

/-! ### C10 -/

theorem drawStep_weights (draws : Nat → Nat) (st st2 : InnerState) (b : Bool)
    (hw : st.weights = mkWeights st.pool) (h : drawStep draws st = some (st2, b)) :
    st2.weights = mkWeights st2.pool := by
  have hp : st.pool ≠ [] := by
    intro hnil
    rw [drawStep, hnil] at h
    exact Option.noConfusion h
  rcases drawStep_cases draws st hp with ⟨kc, hmem, ⟨hc, heq⟩ | ⟨hc, heq⟩⟩
  · rw [heq] at h
    simp only [Option.some.injEq, Prod.mk.injEq] at h
    rw [← h.1]
    exact hw
  · rw [heq] at h
    simp only [Option.some.injEq, Prod.mk.injEq] at h
    rw [← h.1]
    show st.weights.eraseIdx (st.pool.indexOf kc) =
      mkWeights (st.pool.eraseIdx (st.pool.indexOf kc))
    rw [hw, mkWeights, mkWeights, map_eraseIdx]

theorem innerLoop_weights (draws : Nat → Nat) :
    ∀ (fuel : Nat) (st : InnerState) (need : Nat) (st2 : InnerState),
      st.weights = mkWeights st.pool → innerLoop draws fuel st need = .ok st2 →
      st2.weights = mkWeights st2.pool := by
  intro fuel
  induction fuel with
  | zero =>
    intro st need st2 hw h
    by_cases hn : need = 0
    · simp only [innerLoop, if_pos hn, LoopResult.ok.injEq] at h
      rw [← h]; exact hw
    · simp only [innerLoop, if_neg hn] at h
      exact LoopResult.noConfusion h
  | succ fuel ih =>
    intro st need st2 hw h
    by_cases hn : need = 0
    · simp only [innerLoop, if_pos hn, LoopResult.ok.injEq] at h
      rw [← h]; exact hw
    · simp only [innerLoop, if_neg hn] at h
      cases hds : drawStep draws st with
      | none => rw [hds] at h; exact LoopResult.noConfusion h
      | some pr =>
        rw [hds] at h
        exact ih pr.1 (if pr.2 then need - 1 else need) st2
          (drawStep_weights draws st pr.1 pr.2 hw (by rw [hds])) h

/-- C10: the weight list stays index-aligned with the primary pool.  The
initial weight list has the pool's length and holds `1 / (pickTimes + 1)` at
every index; each accepted draw removes the card and its weight at the same
index, so a single draw step — and hence any completed run of the draw
loop — preserves `weights = mkWeights pool`, keeping every remaining card's
weight equal to its inverse-frequency value. -/
theorem c10_weights_aligned :
    (∀ pool : List Card, (mkWeights pool).length = pool.length) ∧
    (∀ (pool : List Card) (i : Nat), i < pool.length →
      (mkWeights pool).getD i 0 = 1 / (((pool.getD i dummyCard).pickTimes : ℚ) + 1)) ∧
    (∀ (draws : Nat → Nat) (st st2 : InnerState) (b : Bool),
      st.weights = mkWeights st.pool → drawStep draws st = some (st2, b) →
      st2.weights = mkWeights st2.pool) ∧
    (∀ (draws : Nat → Nat) (fuel : Nat) (st : InnerState) (need : Nat) (st2 : InnerState),
      st.weights = mkWeights st.pool → innerLoop draws fuel st need = .ok st2 →
      st2.weights = mkWeights st2.pool) := by
  refine ⟨?_, ?_, drawStep_weights, innerLoop_weights⟩
  · intro pool
    simp [mkWeights]
  · intro pool i hi
    have hi2 : i < (mkWeights pool).length := by simpa [mkWeights] using hi
    rw [List.getD_eq_getElem _ _ hi2, List.getD_eq_getElem _ _ hi]
    simp [mkWeights]

/-- Witness for `c10_weights_aligned` on a one-card pool and one draw step. -/
theorem c10_weights_aligned_witness :
    (mkWeights [dummyCard]).length = ([dummyCard] : List Card).length ∧
    (mkWeights [dummyCard]).getD 0 0 =
      1 / (((([dummyCard] : List Card).getD 0 dummyCard).pickTimes : ℚ) + 1) ∧
    (⟨1, [], (mkWeights [dummyCard]).eraseIdx 0, [dummyCard], 0⟩ : InnerState).weights =
      mkWeights (⟨1, [], (mkWeights [dummyCard]).eraseIdx 0, [dummyCard], 0⟩ : InnerState).pool :=
  ⟨c10_weights_aligned.1 [dummyCard],
   c10_weights_aligned.2.1 [dummyCard] 0 (by decide),
   c10_weights_aligned.2.2.1 (fun _ => 0) ⟨0, [dummyCard], mkWeights [dummyCard], [], 0⟩
     ⟨1, [], (mkWeights [dummyCard]).eraseIdx 0, [dummyCard], 0⟩ true rfl rfl⟩

/-! ### C5 -/

theorem drawStep_mem (draws : Nat → Nat) (st st2 : InnerState) (b : Bool)
    (h : drawStep draws st = some (st2, b)) :
    (∀ c ∈ st2.picked, c ∈ st.picked ∨ c ∈ st.pool) ∧ (∀ c ∈ st2.pool, c ∈ st.pool) := by
  have hp : st.pool ≠ [] := by
    intro hnil
    rw [drawStep, hnil] at h
    exact Option.noConfusion h
  rcases drawStep_cases draws st hp with ⟨kc, hmem, ⟨hc, heq⟩ | ⟨hc, heq⟩⟩
  · rw [heq] at h
    simp only [Option.some.injEq, Prod.mk.injEq] at h
    rw [← h.1]
    exact ⟨fun c hc2 => Or.inl hc2, fun c hc2 => hc2⟩
  · rw [heq] at h
    simp only [Option.some.injEq, Prod.mk.injEq] at h
    rw [← h.1]
    constructor
    · intro c hc2
      rcases List.mem_append.1 hc2 with h3 | h3
      · exact Or.inl h3
      · rcases List.mem_singleton.1 h3 with rfl
        exact Or.inr hmem
    · intro c hc2
      exact List.eraseIdx_subset st.pool (st.pool.indexOf kc) hc2

theorem innerLoop_mem (draws : Nat → Nat) :
    ∀ (fuel : Nat) (st : InnerState) (need : Nat) (st2 : InnerState),
      innerLoop draws fuel st need = .ok st2 →
      (∀ c ∈ st2.picked, c ∈ st.picked ∨ c ∈ st.pool) ∧ (∀ c ∈ st2.pool, c ∈ st.pool) := by
  intro fuel
  induction fuel with
  | zero =>
    intro st need st2 h
    by_cases hn : need = 0
    · simp only [innerLoop, if_pos hn, LoopResult.ok.injEq] at h
      rw [← h]
      exact ⟨fun c h2 => Or.inl h2, fun c h2 => h2⟩
    · simp only [innerLoop, if_neg hn] at h
      exact LoopResult.noConfusion h
  | succ fuel ih =>
    intro st need st2 h
    by_cases hn : need = 0
    · simp only [innerLoop, if_pos hn, LoopResult.ok.injEq] at h
      rw [← h]
      exact ⟨fun c h2 => Or.inl h2, fun c h2 => h2⟩
    · simp only [innerLoop, if_neg hn] at h
      cases hds : drawStep draws st with
      | none => rw [hds] at h; exact LoopResult.noConfusion h
      | some pr =>
        rw [hds] at h
        have h1 := drawStep_mem draws st pr.1 pr.2 (by rw [hds])
        have h2 := ih pr.1 (if pr.2 then need - 1 else need) st2 h
        constructor
        · intro c hcm
          rcases h2.1 c hcm with h3 | h3
          · rcases h1.1 c h3 with h4 | h4
            · exact Or.inl h4
            · exact Or.inr h4
          · exact Or.inr (h1.2 c h3)
        · intro c hcm
          exact h1.2 c (h2.2 c hcm)

theorem mem_insertCardByName {x c : Card} :
    ∀ (l : List Card), x ∈ insertCardByName c l → x = c ∨ x ∈ l
  | [] => by
    intro h
    simp only [insertCardByName] at h
    exact Or.inl (List.mem_singleton.1 h)
  | d :: ds => by
    intro h
    by_cases hlt : nameLt c.name d.name = true
    · simp only [insertCardByName, if_pos hlt] at h
      rcases List.mem_cons.1 h with h2 | h2
      · exact Or.inl h2
      · exact Or.inr h2
    · simp only [insertCardByName, if_neg hlt] at h
      rcases List.mem_cons.1 h with h2 | h2
      · exact Or.inr (h2 ▸ List.mem_cons_self d ds)
      · rcases mem_insertCardByName ds h2 with h3 | h3
        · exact Or.inl h3
        · exact Or.inr (List.mem_cons_of_mem d h3)

theorem mem_sortByName_fold {x : Card} :
    ∀ (l : List Card) (acc : List Card),
      x ∈ l.foldl (fun acc c => insertCardByName c acc) acc → x ∈ acc ∨ x ∈ l
  | [], acc => fun h => Or.inl h
  | c :: cs, acc => by
    intro h
    rcases mem_sortByName_fold cs (insertCardByName c acc) h with h2 | h2
    · rcases mem_insertCardByName acc h2 with h3 | h3
      · exact Or.inr (h3 ▸ List.mem_cons_self c cs)
      · exact Or.inl h3
    · exact Or.inr (List.mem_cons_of_mem c h2)

theorem mem_sortByName {x : Card} (l : List Card) (h : x ∈ sortByName l) : x ∈ l := by
  rcases mem_sortByName_fold l [] h with h2 | h2
  · exact absurd h2 (List.not_mem_nil x)
  · exact h2

theorem eraseFirstByName_mem : ∀ (l : List Card) (nm : String),
    (∀ c ∈ (eraseFirstByName l nm).1, c ∈ l) ∧ (∀ c ∈ (eraseFirstByName l nm).2, c ∈ l)
  | [], nm => by
    constructor
    · intro c h; exact absurd h (List.not_mem_nil c)
    · intro c h; exact absurd h (List.not_mem_nil c)
  | d :: ds, nm => by
    have ih := eraseFirstByName_mem ds nm
    by_cases hd : d.name = nm
    · constructor
      · intro c h
        simp only [eraseFirstByName, if_pos hd] at h
        exact List.mem_cons_of_mem d h
      · intro c h
        simp only [eraseFirstByName, if_pos hd] at h
        rw [List.mem_singleton.1 h]
        exact List.mem_cons_self d ds
    · constructor
      · intro c h
        simp only [eraseFirstByName, if_neg hd] at h
        rcases List.mem_cons.1 h with h2 | h2
        · exact h2 ▸ List.mem_cons_self d ds
        · exact List.mem_cons_of_mem d (ih.1 c h2)
      · intro c h
        simp only [eraseFirstByName, if_neg hd] at h
        exact List.mem_cons_of_mem d (ih.2 c h)

theorem removeByNames_mem : ∀ (names : List String) (picked : List Card),
    (∀ c ∈ (removeByNames picked names).1, c ∈ picked) ∧
    (∀ c ∈ (removeByNames picked names).2, c ∈ picked)
  | [], picked => by
    constructor
    · intro c h; exact h
    · intro c h; exact absurd h (List.not_mem_nil c)
  | nm :: rest, picked => by
    have h1 := eraseFirstByName_mem picked nm
    have ih := removeByNames_mem rest (eraseFirstByName picked nm).1
    constructor
    · intro c h
      exact h1.1 c (ih.1 c h)
    · intro c h
      rcases List.mem_append.1 h with h2 | h2
      · exact h1.2 c h2
      · exact h1.1 c (ih.2 c h2)

theorem rounds_mem (draws : Nat → Nat) (fuel : Nat) :
    ∀ (inputs : List (List String)) (st : InnerState) (nk : Nat) (disc : List Card)
      (out : RoundsOut),
      rounds draws fuel inputs st nk disc = .ok out →
      (∀ c ∈ out.picked, c ∈ st.picked ∨ c ∈ st.pool) ∧
      (∀ d ∈ out.discarded, d ∈ disc ∨ d ∈ st.picked ∨ d ∈ st.pool)
  | [], st, nk, disc, out, h => by
    cases hil : innerLoop draws fuel st nk with
    | err => simp only [rounds, hil] at h; exact LoopResult.noConfusion h
    | spin => simp only [rounds, hil] at h; exact LoopResult.noConfusion h
    | ok st2 =>
      have hm := innerLoop_mem draws fuel st nk st2 hil
      simp only [rounds, hil, LoopResult.ok.injEq] at h
      rw [← h]
      exact ⟨fun c hc => hm.1 c (mem_sortByName st2.picked hc), fun d hd => Or.inl hd⟩
  | answ :: rest, st, nk, disc, out, h => by
    cases hil : innerLoop draws fuel st nk with
    | err => simp only [rounds, hil] at h; exact LoopResult.noConfusion h
    | spin => simp only [rounds, hil] at h; exact LoopResult.noConfusion h
    | ok st2 =>
      have hm := innerLoop_mem draws fuel st nk st2 hil
      simp only [rounds, hil] at h
      by_cases ha : answ = []
      · rw [if_pos ha] at h
        simp only [LoopResult.ok.injEq] at h
        rw [← h]
        exact ⟨fun c hc => hm.1 c (mem_sortByName st2.picked hc), fun d hd => Or.inl hd⟩
      · rw [if_neg ha] at h
        cases hcn : collectNames answ (sortByName st2.picked) with
        | none => rw [hcn] at h; exact LoopResult.noConfusion h
        | some names =>
          rw [hcn] at h
          have hrm := removeByNames_mem names (sortByName st2.picked)
          have ih := rounds_mem draws fuel rest
            { st2 with picked := (removeByNames (sortByName st2.picked) names).1 }
            answ.length (disc ++ (removeByNames (sortByName st2.picked) names).2) out h
          constructor
          · intro c hc
            rcases ih.1 c hc with h2 | h2
            · exact hm.1 c (mem_sortByName st2.picked (hrm.1 c h2))
            · exact Or.inr (hm.2 c h2)
          · intro d hd
            rcases ih.2 d hd with h2 | h2 | h2
            · rcases List.mem_append.1 h2 with h3 | h3
              · exact Or.inl h3
              · exact Or.inr (hm.1 d (mem_sortByName st2.picked (hrm.2 d h3)))
            · exact Or.inr (hm.1 d (mem_sortByName st2.picked (hrm.1 d h2)))
            · exact Or.inr (Or.inr (hm.2 d h2))

theorem scan_result_map (aD pD : Nat) (allies prophecies : List Card) :
    ∀ (ks : List Card) (aOpt pOpt : Option Card) (r : List Card × List Card),
      scan_liaison_omen aD pD allies prophecies aOpt pOpt ks = some r →
      r.1 = ks.map incPick
  | [], aOpt, pOpt, r, h => by
    simp only [scan_liaison_omen, Option.some.injEq] at h
    rw [← h]
    rfl
  | k :: ks, aOpt, pOpt, r, h => by
    simp only [scan_liaison_omen] at h
    cases hsc : scanCard aD pD allies prophecies aOpt pOpt k with
    | none => rw [hsc] at h; exact Option.noConfusion h
    | some tr =>
      rw [hsc] at h
      dsimp only at h
      cases hrec : scan_liaison_omen aD pD allies prophecies tr.1 tr.2.1 ks with
      | none => rw [hrec] at h; exact Option.noConfusion h
      | some pr2 =>
        rw [hrec] at h
        simp only [Option.some.injEq] at h
        rw [← h]
        have hih := scan_result_map aD pD allies prophecies ks tr.1 tr.2.1 pr2 hrec
        simp [hih]

/-- C5: in every finished run, every card of the finalized primary list is a
pool card with its `pickTimes` incremented by exactly one — the increment
happens once, after all reroll rounds are resolved — while every card
discarded during a reroll round ends the run exactly as it was in the pool,
its `pickTimes` untouched. -/
theorem c5_picktimes_increment (draws : Nat → Nat) (inputs : List (List String))
    (aD pD : Nat) (samp : Nat → Nat) (fuel : Nat) (randpiles : Piles)
    (nk nl : Nat) (pr : Picked × List Card)
    (h : pick_random_cards draws inputs aD pD samp fuel randpiles nk nl = .ok pr) :
    (∀ c ∈ pr.1.kingdoms, ∃ c0, c0 ∈ randpiles.kingdoms ∧ c = incPick c0) ∧
    (∀ d ∈ pr.2, d ∈ randpiles.kingdoms) := by
  rcases hk : randpiles.kingdoms with _ | ⟨c0, cs⟩
  · unfold pick_random_cards at h
    rw [hk] at h
    dsimp only at h
    simp only [LoopResult.ok.injEq] at h
    rw [← h]
    constructor
    · intro c hc; exact absurd hc (List.not_mem_nil c)
    · intro d hd; exact absurd hd (List.not_mem_nil d)
  · unfold pick_random_cards at h
    rw [hk] at h
    dsimp only at h
    cases hr : rounds draws fuel inputs ⟨0, c0 :: cs, mkWeights (c0 :: cs), [], 0⟩ nk [] with
    | spin => rw [hr] at h; exact LoopResult.noConfusion h
    | err => rw [hr] at h; exact LoopResult.noConfusion h
    | ok out =>
      rw [hr] at h
      dsimp only at h
      cases hs : scan_liaison_omen aD pD randpiles.allies randpiles.prophecies
          none none out.picked with
      | none => rw [hs] at h; exact LoopResult.noConfusion h
      | some pr2 =>
        rw [hs] at h
        dsimp only at h
        simp only [LoopResult.ok.injEq] at h
        have hmap := scan_result_map aD pD randpiles.allies randpiles.prophecies
          out.picked none none pr2 hs
        have hrm := rounds_mem draws fuel inputs ⟨0, c0 :: cs, mkWeights (c0 :: cs), [], 0⟩
          nk [] out hr
        rw [← h]
        constructor
        · intro c hc
          have hc2 : c ∈ pr2.1 := hc
          rw [hmap] at hc2
          rcases List.mem_map.1 hc2 with ⟨cx, hcx, hceq⟩
          refine ⟨cx, ?_, hceq.symm⟩
          rcases hrm.1 cx hcx with h2 | h2
          · exact absurd h2 (List.not_mem_nil cx)
          · exact h2
        · intro d hd
          rcases hrm.2 d hd with h2 | h2 | h2
          · exact absurd h2 (List.not_mem_nil d)
          · exact absurd h2 (List.not_mem_nil d)
          · exact h2

/-- Witness for `c5_picktimes_increment`: a run that picks two cards, rerolls
one of them away and backfills, so the final cards are incremented pool cards
and the discarded card is an untouched pool card. -/
theorem c5_picktimes_increment_witness :
    (∀ c ∈ ((⟨⟨[incPick (baseTestCard "b"), incPick (baseTestCard "c")], []⟩,
          [baseTestCard "a"]⟩ : Picked × List Card)).1.kingdoms,
        ∃ c0, c0 ∈ c5piles.kingdoms ∧ c = incPick c0) ∧
    (∀ d ∈ ((⟨⟨[incPick (baseTestCard "b"), incPick (baseTestCard "c")], []⟩,
          [baseTestCard "a"]⟩ : Picked × List Card)).2, d ∈ c5piles.kingdoms) :=
  c5_picktimes_increment (fun _ => 0) [["1"], []] 0 0 (fun _ => 0) 10 c5piles 2 0
    ⟨⟨[incPick (baseTestCard "b"), incPick (baseTestCard "c")], []⟩, [baseTestCard "a"]⟩ rfl

/-! ### C8 -/

theorem sampleOracle_length (samp : Nat → Nat) :
    ∀ (t k : Nat) (pool : List Card), (sampleOracle samp t k pool).length = min k pool.length
  | t, 0, pool => by simp [sampleOracle]
  | t, k + 1, [] => by simp [sampleOracle]
  | t, k + 1, c :: cs => by
    have hj : samp t % (c :: cs).length < (c :: cs).length :=
      Nat.mod_lt _ (by simp)
    have hlen : ((c :: cs).eraseIdx (samp t % (c :: cs).length)).length =
        (c :: cs).length - 1 := by
      rw [List.length_eraseIdx, if_pos hj]
    have ih := sampleOracle_length samp (t + 1) k
      ((c :: cs).eraseIdx (samp t % (c :: cs).length))
    simp only [sampleOracle]
    rw [List.length_cons, ih, hlen]
    simp only [List.length_cons]
    omega

theorem sampleOracle_subperm (samp : Nat → Nat) :
    ∀ (t k : Nat) (pool : List Card), (sampleOracle samp t k pool).Subperm pool
  | t, 0, pool => by
    simp only [sampleOracle]
    exact List.nil_subperm
  | t, k + 1, [] => by
    simp only [sampleOracle]
    exact List.nil_subperm
  | t, k + 1, c :: cs => by
    have hj : samp t % (c :: cs).length < (c :: cs).length :=
      Nat.mod_lt _ (by simp)
    have ih := sampleOracle_subperm samp (t + 1) k
      ((c :: cs).eraseIdx (samp t % (c :: cs).length))
    have hperm := getD_cons_eraseIdx_perm (c :: cs) (samp t % (c :: cs).length) hj c
    have h1 : ((c :: cs).getD (samp t % (c :: cs).length) c ::
        sampleOracle samp (t + 1) k
          ((c :: cs).eraseIdx (samp t % (c :: cs).length))).Subperm
        ((c :: cs).getD (samp t % (c :: cs).length) c ::
          (c :: cs).eraseIdx (samp t % (c :: cs).length)) :=
      (List.subperm_cons _).2 ih
    exact h1.trans hperm.subperm

/-- C8: when the landscape pool is non-empty and the requested count is
positive, the selector appends exactly `min(secondaryCount, |secondaryPool|)`
items drawn without replacement from the secondary pool (a sub-permutation of
the pool, so no entry is drawn twice) after the special-pool items already
appended; when the count is zero or the pool is empty, nothing is drawn. -/
theorem c8_secondary_uniform_draw (samp : Nat → Nat) (pool : List Card) (k : Nat)
    (already : List Card) :
    (pool ≠ [] → 0 < k →
      ∃ s, pick_landscape_cards samp pool k already = already ++ s ∧
        s.length = min k pool.length ∧ s.Subperm pool) ∧
    pick_landscape_cards samp pool 0 already = already ∧
    pick_landscape_cards samp [] k already = already := by
  refine ⟨?_, ?_, ?_⟩
  · intro hne hk
    refine ⟨sampleOracle samp 0 (min k pool.length) pool, ?_, ?_,
      sampleOracle_subperm samp 0 (min k pool.length) pool⟩
    · rw [pick_landscape_cards, if_pos ⟨hne, hk⟩]
    · rw [sampleOracle_length]
      omega
  · rw [pick_landscape_cards]
    simp
  · rw [pick_landscape_cards]
    simp

/-- Witness for `c8_secondary_uniform_draw` on a two-card pool. -/
theorem c8_secondary_uniform_draw_witness :
    ∃ s, pick_landscape_cards (fun _ => 0) [baseTestCard "l1", baseTestCard "l2"] 1 [] =
        [] ++ s ∧
      s.length = min 1 ([baseTestCard "l1", baseTestCard "l2"] : List Card).length ∧
      s.Subperm [baseTestCard "l1", baseTestCard "l2"] :=
  (c8_secondary_uniform_draw (fun _ => 0) [baseTestCard "l1", baseTestCard "l2"] 1 []).1
    (by decide) (by decide)

/-! ### C7 -/

theorem scan_both_taken (aD pD : Nat) (allies prophecies : List Card) (a0 p0 : Card) :
    ∀ ks : List Card, scan_liaison_omen aD pD allies prophecies (some a0) (some p0) ks =
      some (ks.map incPick, [])
  | [] => rfl
  | k :: ks => by
    have ih := scan_both_taken aD pD allies prophecies a0 p0 ks
    simp [scan_liaison_omen, scanCard, ih]

theorem scan_ally_taken (aD pD : Nat) (allies prophecies : List Card) (a0 p : Card)
    (hp : pyChoice prophecies pD = some p) :
    ∀ ks : List Card, scan_liaison_omen aD pD allies prophecies (some a0) none ks =
      some (ks.map incPick, if ks.any (fun c => c.isOmen) then [p] else [])
  | [] => rfl
  | k :: ks => by
    have ih := scan_ally_taken aD pD allies prophecies a0 p hp ks
    by_cases ho : k.isOmen = true
    · simp [scan_liaison_omen, scanCard, ho, hp, scan_both_taken, List.any_cons]
    · simp [scan_liaison_omen, scanCard, ho, ih, List.any_cons]

theorem scan_proph_taken (aD pD : Nat) (allies prophecies : List Card) (p0 a : Card)
    (ha : pyChoice allies aD = some a) :
    ∀ ks : List Card, scan_liaison_omen aD pD allies prophecies none (some p0) ks =
      some (ks.map incPick, if ks.any (fun c => c.isLiaison) then [a] else [])
  | [] => rfl
  | k :: ks => by
    have ih := scan_proph_taken aD pD allies prophecies p0 a ha ks
    by_cases hl : k.isLiaison = true
    · simp [scan_liaison_omen, scanCard, hl, ha, scan_both_taken, List.any_cons]
    · simp [scan_liaison_omen, scanCard, hl, ih, List.any_cons]

/-- C7: the final kingdom scan increments every finalized primary card once
and draws at most one card per special pool: exactly the first card with the
Liaison flag triggers one draw from the allies pool, exactly the first card
with the Omen flag triggers one draw from the prophecies pool, later flagged
cards trigger nothing, and a flag carried by no card contributes nothing; the
two drawn cards are appended in the order in which the first flags occur. -/
theorem c7_first_trigger (aD pD : Nat) (allies prophecies : List Card) (a p : Card)
    (ha : pyChoice allies aD = some a) (hp : pyChoice prophecies pD = some p) :
    ∀ ks : List Card, scan_liaison_omen aD pD allies prophecies none none ks =
      some (ks.map incPick,
        expectedSpecials (ks.any (fun c => c.isLiaison)) (ks.any (fun c => c.isOmen))
          (ks.findIdx (fun c => c.isLiaison)) (ks.findIdx (fun c => c.isOmen)) a p)
  | [] => by simp [scan_liaison_omen, expectedSpecials]
  | k :: ks => by
    have ih := c7_first_trigger aD pD allies prophecies a p ha hp ks
    by_cases hl : k.isLiaison = true <;> by_cases ho : k.isOmen = true
    · have hsc : scanCard aD pD allies prophecies none none k = some (some a, some p, [a, p]) := by
        simp [scanCard, hl, ho, ha, hp]
      simp only [scan_liaison_omen, hsc, scan_both_taken aD pD allies prophecies a p ks]
      simp [expectedSpecials, List.any_cons, List.findIdx_cons, hl, ho]
    · have hsc : scanCard aD pD allies prophecies none none k = some (some a, none, [a]) := by
        simp [scanCard, hl, ho, ha]
      simp only [scan_liaison_omen, hsc, scan_ally_taken aD pD allies prophecies a p hp ks]
      by_cases h2 : ks.any (fun c => c.isOmen) = true <;>
        simp [expectedSpecials, List.any_cons, List.findIdx_cons, hl, ho, h2]
    · have hsc : scanCard aD pD allies prophecies none none k = some (none, some p, [p]) := by
        simp [scanCard, hl, ho, hp]
      simp only [scan_liaison_omen, hsc, scan_proph_taken aD pD allies prophecies p a ha ks]
      by_cases h2 : ks.any (fun c => c.isLiaison) = true <;>
        simp [expectedSpecials, List.any_cons, List.findIdx_cons, hl, ho, h2,
          Nat.not_succ_le_zero]
    · have hsc : scanCard aD pD allies prophecies none none k = some (none, none, []) := by
        simp [scanCard, hl, ho]
      simp only [scan_liaison_omen, hsc, ih]
      by_cases h2 : ks.any (fun c => c.isLiaison) = true <;>
        by_cases h3 : ks.any (fun c => c.isOmen) = true <;>
        simp [expectedSpecials, List.any_cons, List.findIdx_cons, hl, ho, h2, h3,
          Nat.succ_le_succ_iff]

/-- Witness for `c7_first_trigger`: a two-card list whose first card is a
Liaison and whose second is an Omen. -/
theorem c7_first_trigger_witness :
    scan_liaison_omen 0 0 [baseTestCard "ally"] [baseTestCard "pro"] none none
      [liaisonTestCard, omenTestCard] =
      some ([incPick liaisonTestCard, incPick omenTestCard],
        expectedSpecials
          (([liaisonTestCard, omenTestCard] : List Card).any (fun c => c.isLiaison))
          (([liaisonTestCard, omenTestCard] : List Card).any (fun c => c.isOmen))
          (([liaisonTestCard, omenTestCard] : List Card).findIdx (fun c => c.isLiaison))
          (([liaisonTestCard, omenTestCard] : List Card).findIdx (fun c => c.isOmen))
          (baseTestCard "ally") (baseTestCard "pro")) :=
  c7_first_trigger 0 0 [baseTestCard "ally"] [baseTestCard "pro"]
    (baseTestCard "ally") (baseTestCard "pro") rfl rfl [liaisonTestCard, omenTestCard]
